import Mathlib

/-!
Verification development for the jsonnet tree-walking evaluator
(`core/vm.cpp`).  The data model (heap entities such as `HeapSimpleObject`,
`HeapComprehensionObject`, `HeapExtendedObject`, `HeapThunk`) is declared in
`state.h`, which is not part of the sources; those shapes are modelled from
the specification.  All algorithms (`findObject`, `objectIndex`,
`objectFields`, `countLeaves`, `tailCallTrimStack`, `newCall`, `pop`,
`makeDoubleCheck`, the binary-operator and builtin dispatch, the thunk
forcing discipline, and the evaluate driver loop) are transcribed from
`core/vm.cpp`.
-/

/-- Interned identifiers.  The C++ code interns `Identifier*` so that
equality is pointer equality; we model them as strings (the interned name),
which also lets error messages mention the field name. -/
abbrev Ident := String

/-- Association-list lookup, the model of `std::map::find`. -/
def alookup (k : Ident) : List (Ident × γ) → Option γ
  | [] => none
  | p :: rest => if p.1 = k then some p.2 else alookup k rest

/-- Association-list insert-or-assign, the model of `std::map::operator[]`
followed by assignment: every existing entry for the key is overwritten in
place; if the key is absent the entry is appended. -/
def aset (k : Ident) (v : γ) (l : List (Ident × γ)) : List (Ident × γ) :=
  if (alookup k l).isSome then
    l.map (fun q => if q.1 = k then (k, v) else q)
  else
    l ++ [(k, v)]

/-- Field visibility, `ObjectField::Hide` in the C++ AST. -/
inductive Hide where
  | hidden
  | inherit
  | visible
deriving DecidableEq

/-- Modelled from the spec: the object prototype tree.  Leaves are
`HeapSimpleObject` (a field map identifier to (hide-kind, body AST), a list
of assertion bodies, captured bindings) or `HeapComprehensionObject` (one
thunk per field name, the loop variable identifier, the field-value
expression, captured bindings); internal nodes are
`HeapExtendedObject(left, right)`.  `state.h` is not in the sources, so the
shapes follow the specification's data model; `α` stands for body ASTs and
`β` for thunk references. -/
inductive ObjTree (α β : Type) where
  | simple (fields : List (Ident × Hide × α)) (upValues : List (Ident × β))
      (asserts : List α)
  | comp (compValues : List (Ident × β)) (id : Ident) (value : α)
      (upValues : List (Ident × β))
  | ext (left right : ObjTree α β)
deriving DecidableEq

/-- Whether a leaf's field map contains `f`: `simp->fields.find(f)` for a
simple object, `comp->compValues.find(f)` for a comprehension object.
Internal nodes have no field map of their own. -/
def leafHas (f : Ident) : ObjTree α β → Bool
  | ObjTree.simple fields _ _ => (alookup f fields).isSome
  | ObjTree.comp compValues _ _ _ => (alookup f compValues).isSome
  | ObjTree.ext _ _ => false

/-- `Interpreter::countLeaves` (vm.cpp): leaves of the prototype tree. -/
def countLeaves : ObjTree α β → Nat
  | ObjTree.ext l r => countLeaves l + countLeaves r
  | ObjTree.simple _ _ _ => 1
  | ObjTree.comp _ _ _ _ => 1

/-- The leaves of the tree in the traversal order of `findObject`:
depth-first with the right subtree before the left. -/
def leaves : ObjTree α β → List (ObjTree α β)
  | ObjTree.ext l r => leaves r ++ leaves l
  | ObjTree.simple fields ups asserts => [ObjTree.simple fields ups asserts]
  | ObjTree.comp vals i v ups => [ObjTree.comp vals i v ups]

/-- `Interpreter::findObject` (vm.cpp).  Traverses the tree right to left
looking for a leaf that contains `f`, skipping the first `start_from`
leaves; `counter` is the by-reference counter threaded through the
recursion, returned together with the found leaf and the new `self`
(always the original root). -/
def findObject (f : Ident) (root : ObjTree α β) :
    ObjTree α β → Nat → Nat → Nat × Option (ObjTree α β × ObjTree α β)
  | ObjTree.ext l r, start_from, counter =>
    match findObject f root r start_from counter with
    | (c₁, some res) => (c₁, some res)
    | (c₁, none) => findObject f root l start_from c₁
  | ObjTree.simple fields ups asserts, start_from, counter =>
    if start_from ≤ counter ∧ (alookup f fields).isSome then
      (counter, some (ObjTree.simple fields ups asserts, root))
    else (counter + 1, none)
  | ObjTree.comp vals i v ups, start_from, counter =>
    if start_from ≤ counter ∧ (alookup f vals).isSome then
      (counter, some (ObjTree.comp vals i v ups, root))
    else (counter + 1, none)

/-- Specification-side reformulation of the traversal, written from the
spec's words: walk the leaf list (right subtree first), skip the first `k`
leaves, and return the first subsequent leaf whose field map contains `f`
together with the total number of leaves skipped before it.  `i` is the
index of the first list element. -/
def specFindFrom (f : Ident) (k : Nat) :
    List (ObjTree α β) → Nat → Option (Nat × ObjTree α β)
  | [], _ => none
  | t :: ts, i =>
    if k ≤ i ∧ leafHas f t then some (i, t) else specFindFrom f k ts (i + 1)

/-- The outcome of `Interpreter::objectIndex`: either a runtime error or a
pushed CALL frame (`Stack::newCall(loc, context, self, offset, bindings)`)
together with the field body to evaluate. -/
inductive IndexResult (α β : Type) where
  | err (msg : String)
  | call (context : ObjTree α β) (self : ObjTree α β) (offset : Nat)
      (bindings : List (Ident × β)) (body : α)
deriving DecidableEq

/-- `Interpreter::objectIndex` (vm.cpp).  Finds the field, reports
`Field does not exist` when absent, and otherwise pushes a CALL frame whose
self is the root returned by `findObject`, whose super-offset is `found_at`
and whose bindings are the leaf's captured environment (for a comprehension
object additionally binding the loop variable to the field's thunk). -/
def objectIndex (obj : ObjTree α β) (f : Ident) (offset : Nat) :
    IndexResult α β :=
  match findObject f obj obj offset 0 with
  | (_, none) => IndexResult.err ("Field does not exist: " ++ f)
  | (found_at, some (leaf, self)) =>
    match leaf with
    | ObjTree.simple fields ups asserts =>
      match alookup f fields with
      | some fld =>
        IndexResult.call (ObjTree.simple fields ups asserts) self found_at
          ups fld.2
      | none => IndexResult.err "INTERNAL ERROR"
    | ObjTree.comp vals i value ups =>
      match alookup f vals with
      | some th =>
        IndexResult.call (ObjTree.comp vals i value ups) self found_at
          (aset i th ups) value
      | none => IndexResult.err "INTERNAL ERROR"
    | ObjTree.ext _ _ => IndexResult.err "INTERNAL ERROR"

/-- One merge step of `Interpreter::objectFields` (vm.cpp): a single
iteration of the loop over the left subtree's field map.  If the field was
not seen yet it is inserted; if it was seen with inherited visibility the
new (left) visibility replaces it; otherwise the right side's entry is
kept. -/
def mergeStep (r : List (Ident × Hide)) (p : Ident × Hide) :
    List (Ident × Hide) :=
  match alookup p.1 r with
  | none => r ++ [p]
  | some h => if h = Hide.inherit then aset p.1 p.2 r else r

/-- The merge loop of `Interpreter::objectFields` on an `ExtendedObject`:
fold the left subtree's map into the right subtree's map. -/
def mergeHide (r l : List (Ident × Hide)) : List (Ident × Hide) :=
  l.foldl mergeStep r

/-- `Interpreter::objectFields(obj_, counter, skip, manifesting)` (vm.cpp).
Returns the threaded counter and the identifier-to-hide map.  A simple
object contributes its declared hide kinds when manifesting (otherwise
everything is visible), a comprehension object contributes visible fields,
and an extended object merges left into right with `mergeHide`. -/
def objectFields (manifesting : Bool) (skip : Nat) :
    ObjTree α β → Nat → Nat × List (Ident × Hide)
  | ObjTree.simple fields _ _, counter =>
    let counter := counter + 1
    if counter ≤ skip then (counter, [])
    else
      (counter,
       fields.map (fun p => (p.1, if manifesting then p.2.1 else Hide.visible)))
  | ObjTree.ext l r, counter =>
    match objectFields manifesting skip r counter with
    | (c₁, rmap) =>
      match objectFields manifesting skip l c₁ with
      | (c₂, lmap) => (c₂, mergeHide rmap lmap)
  | ObjTree.comp vals _ _ _, counter =>
    let counter := counter + 1
    if counter ≤ skip then (counter, [])
    else (counter, vals.map (fun p => (p.1, Hide.visible)))

/-- The merged hide map of a whole object (counter initialised to 0, no
leaves skipped), as used by the set-returning overload of
`Interpreter::objectFields`. -/
def hideMap (manifesting : Bool) (obj : ObjTree α β) : List (Ident × Hide) :=
  (objectFields manifesting 0 obj 0).2

/-- The set-returning overload `Interpreter::objectFields(obj_, manifesting)`
(vm.cpp): the identifiers whose merged hide kind is not `HIDDEN`.  The
manifester calls this to collect the fields that appear in the output. -/
def objectFieldsSet (obj : ObjTree α β) (manifesting : Bool) : List Ident :=
  ((hideMap manifesting obj).filter (fun p => p.2 ≠ Hide.hidden)).map
    (fun p => p.1)

/-- The shape of an IEEE-754 double as far as the interpreter's checks can
observe it: not-a-number, a signed infinity, or a finite value (modelled
exactly as a rational; rounding of finite arithmetic is not modelled, but
every theorem about the NaN/infinity guard quantifies over all possible
`FP` results, so the guard is verified for every double the hardware could
produce). -/
inductive FP where
  | nan
  | inf (negative : Bool)
  | finite (q : ℚ)
deriving DecidableEq

/-- `std::isnan`. -/
def FP.isNaN : FP → Bool
  | FP.nan => true
  | _ => false

/-- `std::isinf`. -/
def FP.isInf : FP → Bool
  | FP.inf _ => true
  | _ => false

/-- The IEEE comparison `d == 0` used by the division and modulo guards. -/
def FP.isZero : FP → Bool
  | FP.finite q => q = 0
  | _ => false

/-- IEEE `==` on doubles (`NaN` compares unequal to everything, signed
infinities compare by sign, finite values by value). -/
def fpEq : FP → FP → Bool
  | FP.nan, _ => false
  | _, FP.nan => false
  | FP.inf s, FP.inf t => s = t
  | FP.inf _, FP.finite _ => false
  | FP.finite _, FP.inf _ => false
  | FP.finite a, FP.finite b => a = b

/-- Double addition (`lhs.v.d + rhs.v.d`): NaN propagates, opposite
infinities give NaN, finite addition is exact. -/
def fpAdd : FP → FP → FP
  | FP.nan, _ => FP.nan
  | _, FP.nan => FP.nan
  | FP.inf s, FP.inf t => if s = t then FP.inf s else FP.nan
  | FP.inf s, FP.finite _ => FP.inf s
  | FP.finite _, FP.inf t => FP.inf t
  | FP.finite a, FP.finite b => FP.finite (a + b)

/-- Double subtraction. -/
def fpSub : FP → FP → FP
  | FP.nan, _ => FP.nan
  | _, FP.nan => FP.nan
  | FP.inf s, FP.inf t => if s = t then FP.nan else FP.inf s
  | FP.inf s, FP.finite _ => FP.inf s
  | FP.finite _, FP.inf t => FP.inf (!t)
  | FP.finite a, FP.finite b => FP.finite (a - b)

/-- Double multiplication. -/
def fpMul : FP → FP → FP
  | FP.nan, _ => FP.nan
  | _, FP.nan => FP.nan
  | FP.inf s, FP.inf t => FP.inf (s != t)
  | FP.inf s, FP.finite b => if b = 0 then FP.nan else FP.inf (s != decide (b < 0))
  | FP.finite a, FP.inf t => if a = 0 then FP.nan else FP.inf (t != decide (a < 0))
  | FP.finite a, FP.finite b => FP.finite (a * b)

/-- Double division (the interpreter only reaches this after its own
`rhs == 0` guard). -/
def fpDiv : FP → FP → FP
  | FP.nan, _ => FP.nan
  | _, FP.nan => FP.nan
  | FP.inf _, FP.inf _ => FP.nan
  | FP.inf s, FP.finite b => FP.inf (s != decide (b < 0))
  | FP.finite _, FP.inf _ => FP.finite 0
  | FP.finite a, FP.finite b => if b = 0 then FP.nan else FP.finite (a / b)

/-- IEEE `<=` (false whenever either side is NaN). -/
def fpLe : FP → FP → Bool
  | FP.nan, _ => false
  | _, FP.nan => false
  | FP.inf s, FP.inf t => s || !t
  | FP.inf s, FP.finite _ => s
  | FP.finite _, FP.inf t => !t
  | FP.finite a, FP.finite b => a ≤ b

/-- IEEE `<` (false whenever either side is NaN). -/
def fpLt : FP → FP → Bool
  | FP.nan, _ => false
  | _, FP.nan => false
  | FP.inf s, FP.inf t => s && !t
  | FP.inf s, FP.finite _ => s
  | FP.finite _, FP.inf t => !t
  | FP.finite a, FP.finite b => a < b

/-- Runtime values, the tagged `Value` record of the interpreter: one of
NULL, BOOLEAN, DOUBLE, STRING, ARRAY, OBJECT, FUNCTION.  Strings carry
their character data (the dereferenced `HeapString::value`); arrays,
objects and functions carry an opaque heap reference, which is all the
operations modelled here inspect. -/
inductive Value where
  | vnull
  | vboolean (b : Bool)
  | vdouble (d : FP)
  | vstring (s : String)
  | varray (h : Nat)
  | vobject (h : Nat)
  | vfunction (h : Nat)
deriving DecidableEq

/-- The type tag `Value::Type` (used for `args[0].t != args[1].t` and for
the matching-types check of binary operators). -/
def typeTag : Value → Nat
  | Value.vnull => 0
  | Value.vboolean _ => 1
  | Value.vdouble _ => 2
  | Value.vstring _ => 3
  | Value.varray _ => 4
  | Value.vobject _ => 5
  | Value.vfunction _ => 6

/-- `type_str`: the name of a value's type as used in error messages. -/
def typeStr : Value → String
  | Value.vnull => "null"
  | Value.vboolean _ => "boolean"
  | Value.vdouble _ => "number"
  | Value.vstring _ => "string"
  | Value.varray _ => "array"
  | Value.vobject _ => "object"
  | Value.vfunction _ => "function"

/-- `Interpreter::makeDoubleCheck` (vm.cpp): reject NaN with
`Not a number`, reject infinities with `Overflow`, and otherwise return a
DOUBLE value. -/
def makeDoubleCheck (v : FP) : Except String Value :=
  if v.isNaN then Except.error "Not a number"
  else if v.isInf then Except.error "Overflow"
  else Except.ok (Value.vdouble v)

/-- The `FRAME_SUPER_INDEX` handler (vm.cpp): read the current self binding
with the super-offset bumped by one; if the bumped offset reaches the leaf
count of self there is no super class; otherwise require a string index and
look the field up on self starting from the bumped offset. -/
def superIndexStep (self : ObjTree α β) (offset : Nat) (scratch : Value) :
    IndexResult α β :=
  let offset := offset + 1
  if countLeaves self ≤ offset then
    IndexResult.err "Attempt to use super when there is no super class."
  else
    match scratch with
    | Value.vstring s => objectIndex self s offset
    | _ =>
      IndexResult.err
        ("Super index must be string, got " ++ typeStr scratch ++ ".")

/-- The `FrameKind` enumeration of vm.cpp. -/
inductive FrameKind where
  | fApplyTarget
  | fBinaryLeft
  | fBinaryRight
  | fBuiltinFilter
  | fBuiltinForceThunks
  | fCall
  | fError
  | fIf
  | fIndexTarget
  | fIndexIndex
  | fInvariants
  | fLocal
  | fObject
  | fObjectCompArray
  | fObjectCompElement
  | fStringConcat
  | fSuperIndex
  | fUnary
deriving DecidableEq

/-- A stack frame as far as the stack-management operations inspect it:
its kind tag, the tail-call flag, the pending argument thunks, the binding
map, and the CALL-frame self/offset/context slots (the remaining slots of
the C++ `Frame` are value scratch space never read by `tailCallTrimStack`,
`newCall` or `pop`). -/
structure StackFrame where
  kind : FrameKind
  tailCall : Bool
  thunks : List Nat
  bindings : List (Ident × Nat)
  selfRef : Option Nat
  offset : Nat
  context : Option Nat
deriving DecidableEq

/-- The frame built by the `Frame` constructor (everything defaulted). -/
def defaultFrame (k : FrameKind) : StackFrame :=
  { kind := k, tailCall := false, thunks := [], bindings := [],
    selfRef := none, offset := 0, context := none }

/-- The `Stack` of vm.cpp: the live CALL-frame counter, the configured
limit, and the frames themselves.  The head of `frames` is the top of the
stack (the back of the C++ vector). -/
structure VMStack where
  calls : Nat
  limit : Nat
  frames : List StackFrame
deriving DecidableEq

/-- The scan of `Stack::tailCallTrimStack` from the top of the stack
downwards: `some rest` means a tail-call CALL frame with no pending thunks
was found below a (possibly empty) run of LOCAL frames, and everything down
to and including it is removed leaving `rest`; `none` means the scan
aborted (a CALL frame that does not qualify, any other frame kind, or the
bottom of the stack) and nothing is removed. -/
def trimScan : List StackFrame → Option (List StackFrame)
  | [] => none
  | f :: rest =>
    match f.kind with
    | FrameKind.fCall =>
      if f.tailCall = false ∨ f.thunks.length > 0 then none else some rest
    | FrameKind.fLocal => trimScan rest
    | _ => none

/-- `Stack::tailCallTrimStack` (vm.cpp): on a successful scan the frames
are popped and the live CALL count is decremented once. -/
def tailCallTrimStack (st : VMStack) : VMStack :=
  match trimScan st.frames with
  | none => st
  | some rest => { st with frames := rest, calls := st.calls - 1 }

/-- The push performed by `Stack::newCall` once the limit check has passed:
a CALL frame carrying the new self binding, super-offset, context and
up-values, with the tail-call flag cleared. -/
def pushCallFrame (st : VMStack) (context : Option Nat) (selfRef : Option Nat)
    (offset : Nat) (up_values : List (Ident × Nat)) : VMStack :=
  { st with
    frames :=
      { kind := FrameKind.fCall, tailCall := false, thunks := [],
        bindings := up_values, selfRef := selfRef, offset := offset,
        context := context } :: st.frames,
    calls := st.calls + 1 }

/-- `Stack::newCall` (vm.cpp): trim tail-call frames, then fail with
`Max stack frames exceeded.` if the live CALL count has reached the limit,
otherwise push the new CALL frame. -/
def newCall (st : VMStack) (context : Option Nat) (selfRef : Option Nat)
    (offset : Nat) (up_values : List (Ident × Nat)) :
    Except String VMStack :=
  let st := tailCallTrimStack st
  if st.limit ≤ st.calls then Except.error "Max stack frames exceeded."
  else Except.ok (pushCallFrame st context selfRef offset up_values)

/-- `Stack::newFrame` (vm.cpp): push a non-counted frame of the given kind.
It performs no limit check and cannot fail. -/
def newFrame (st : VMStack) (k : FrameKind) : VMStack :=
  { st with frames := defaultFrame k :: st.frames }

/-- `Stack::pop` (vm.cpp): decrement the live CALL count when the top frame
is a CALL frame, then drop it.  (The C++ code never pops an empty stack;
the empty case is the identity.) -/
def pop (st : VMStack) : VMStack :=
  match st.frames with
  | [] => st
  | f :: rest =>
    { st with
      calls := if f.kind = FrameKind.fCall then st.calls - 1 else st.calls,
      frames := rest }

/-- Mark the top frame as a tail call (`stack.top().tailCall = true`, done
by the APPLY handler for `tailstrict` call sites). -/
def markTailCall (st : VMStack) : VMStack :=
  match st.frames with
  | [] => st
  | f :: rest => { st with frames := { f with tailCall := true } :: rest }

/-- Store pending argument thunks into the top frame
(`stack.top().thunks = args`). -/
def setTopThunks (st : VMStack) (ths : List Nat) : VMStack :=
  match st.frames with
  | [] => st
  | f :: rest => { st with frames := { f with thunks := ths } :: rest }

/-- The stack operations the evaluator performs, for stating reachability
invariants. -/
inductive StackOp where
  | opNewFrame (k : FrameKind)
  | opNewCall (context : Option Nat) (selfRef : Option Nat) (offset : Nat)
      (ups : List (Ident × Nat))
  | opPop
  | opMarkTailCall
  | opSetTopThunks (ths : List Nat)

/-- Run a sequence of stack operations, propagating the
`Max stack frames exceeded.` failure of `newCall`. -/
def runOps : List StackOp → VMStack → Except String VMStack
  | [], st => Except.ok st
  | op :: ops, st =>
    match op with
    | StackOp.opNewFrame k => runOps ops (newFrame st k)
    | StackOp.opNewCall c s o b =>
      match newCall st c s o b with
      | Except.error e => Except.error e
      | Except.ok st' => runOps ops st'
    | StackOp.opPop => runOps ops (pop st)
    | StackOp.opMarkTailCall => runOps ops (markTailCall st)
    | StackOp.opSetTopThunks ths => runOps ops (setTopThunks st ths)

/-- The empty stack of a fresh `Stack(limit)`. -/
def initStack (limit : Nat) : VMStack :=
  { calls := 0, limit := limit, frames := [] }

/-- The number of CALL frames actually on the stack. -/
def countCalls (fs : List StackFrame) : Nat :=
  (fs.filter (fun f => f.kind = FrameKind.fCall)).length

/-- The binary operators modelled here (the arithmetic, comparison and
logical subset of the C++ `BinaryOp` that the evaluator's DOUBLE, BOOLEAN
and STRING cases handle; the claims under verification only concern
these). -/
inductive BinOp where
  | bplus
  | bminus
  | bmult
  | bdiv
  | bless
  | bgreater
  | blessEq
  | bgreaterEq
  | band
  | bor
deriving DecidableEq

/-- `bop_string`. -/
def bopString : BinOp → String
  | BinOp.bplus => "+"
  | BinOp.bminus => "-"
  | BinOp.bmult => "*"
  | BinOp.bdiv => "/"
  | BinOp.bless => "<"
  | BinOp.bgreater => ">"
  | BinOp.blessEq => "<="
  | BinOp.bgreaterEq => ">="
  | BinOp.band => "&&"
  | BinOp.bor => "||"

/-- The `Value::DOUBLE` case of the `FRAME_BINARY_RIGHT` handler (vm.cpp):
`+`, `-`, `*` and `/` go through `makeDoubleCheck`; `/` additionally guards
against a zero divisor; comparisons produce booleans; the remaining
operators do not operate on numbers. -/
def evalBinaryDouble (op : BinOp) (l r : FP) : Except String Value :=
  match op with
  | BinOp.bplus => makeDoubleCheck (fpAdd l r)
  | BinOp.bminus => makeDoubleCheck (fpSub l r)
  | BinOp.bmult => makeDoubleCheck (fpMul l r)
  | BinOp.bdiv =>
    if r.isZero then Except.error "Division by zero."
    else makeDoubleCheck (fpDiv l r)
  | BinOp.blessEq => Except.ok (Value.vboolean (fpLe l r))
  | BinOp.bgreaterEq => Except.ok (Value.vboolean (fpLe r l))
  | BinOp.bless => Except.ok (Value.vboolean (fpLt l r))
  | BinOp.bgreater => Except.ok (Value.vboolean (fpLt r l))
  | _ =>
    Except.error
      ("Binary operator " ++ bopString op ++ " does not operate on numbers.")

/-- The `AST_LITERAL_NUMBER` dispatch case (vm.cpp):
`scratch = makeDoubleCheck(ast_->location, ast.value)`. -/
def evalNumericLiteral (d : FP) : Except String Value :=
  makeDoubleCheck d

/-- The raw double-producing library functions used by the numeric
builtins (`std::pow`, `std::floor`, ..., `std::frexp`, `std::fmod`).  They
are kept abstract: the theorems quantify over every possible behaviour of
these functions, so the NaN/overflow checks are verified for any double
they may return. -/
structure MathOps where
  powF : FP → FP → FP
  floorF : FP → FP
  ceilF : FP → FP
  sqrtF : FP → FP
  sinF : FP → FP
  cosF : FP → FP
  tanF : FP → FP
  asinF : FP → FP
  acosF : FP → FP
  atanF : FP → FP
  logF : FP → FP
  expF : FP → FP
  frexpMantissa : FP → FP
  frexpExponent : FP → Int
  fmodF : FP → FP → FP

/-- A one-double-argument numeric builtin body: the forced argument list
must be a single double (`validateBuiltinArgs` upstream guarantees this),
and the library function's result goes through `makeDoubleCheck`. -/
def builtinUnaryFP (g : FP → FP) (args : List FP) : Except String Value :=
  match args with
  | [a] => makeDoubleCheck (g a)
  | _ => Except.error "INTERNAL ERROR"

/-- A two-double-argument numeric builtin body. -/
def builtinBinaryFP (g : FP → FP → FP) (args : List FP) :
    Except String Value :=
  match args with
  | [a, b] => makeDoubleCheck (g a b)
  | _ => Except.error "INTERNAL ERROR"

/-- The `modulo` builtin body (builtin 22): guard against a zero divisor,
then `std::fmod` through `makeDoubleCheck`. -/
def builtinModulo (m : MathOps) (args : List FP) : Except String Value :=
  match args with
  | [a, b] =>
    if b.isZero then Except.error "Division by zero."
    else makeDoubleCheck (m.fmodF a b)
  | _ => Except.error "INTERNAL ERROR"

/-- The numeric builtins of the `FRAME_BUILTIN_FORCE_THUNKS` dispatch
(vm.cpp), by builtin number: 1 `pow`, 2 `floor`, 3 `ceil`, 4 `sqrt`,
5 `sin`, 6 `cos`, 7 `tan`, 8 `asin`, 9 `acos`, 10 `atan`, 18 `log`,
19 `exp`, 20 `mantissa`, 21 `exponent`, 22 `modulo`.  Arguments arrive
already validated as doubles (`validateBuiltinArgs`); every result goes
through `makeDoubleCheck`, and `modulo` first guards against a zero
divisor. -/
def builtinNumeric (m : MathOps) (id : Nat) (args : List FP) :
    Except String Value :=
  if id = 1 then builtinBinaryFP m.powF args
  else if id = 2 then builtinUnaryFP m.floorF args
  else if id = 3 then builtinUnaryFP m.ceilF args
  else if id = 4 then builtinUnaryFP m.sqrtF args
  else if id = 5 then builtinUnaryFP m.sinF args
  else if id = 6 then builtinUnaryFP m.cosF args
  else if id = 7 then builtinUnaryFP m.tanF args
  else if id = 8 then builtinUnaryFP m.asinF args
  else if id = 9 then builtinUnaryFP m.acosF args
  else if id = 10 then builtinUnaryFP m.atanF args
  else if id = 18 then builtinUnaryFP m.logF args
  else if id = 19 then builtinUnaryFP m.expF args
  else if id = 20 then builtinUnaryFP m.frexpMantissa args
  else if id = 21 then
    builtinUnaryFP (fun a => FP.finite ((m.frexpExponent a : Int) : ℚ)) args
  else if id = 22 then builtinModulo m args
  else Except.error "INTERNAL ERROR"

/-- Builtin 24, `primitiveEquals` (vm.cpp): different runtime types compare
unequal without error; booleans, numbers and strings compare by value,
two nulls are equal, two functions are an error, and the remaining
same-typed values (arrays, objects) are not primitive. -/
def primitiveEquals (a b : Value) : Except String Value :=
  if typeTag a ≠ typeTag b then Except.ok (Value.vboolean false)
  else
    match a, b with
    | Value.vboolean x, Value.vboolean y => Except.ok (Value.vboolean (x = y))
    | Value.vdouble x, Value.vdouble y => Except.ok (Value.vboolean (fpEq x y))
    | Value.vstring x, Value.vstring y => Except.ok (Value.vboolean (x = y))
    | Value.vnull, Value.vnull => Except.ok (Value.vboolean true)
    | Value.vfunction _, Value.vfunction _ =>
      Except.error "Cannot test equality of functions"
    | a, _ =>
      Except.error
        ("primitiveEquals operates on primitive types, got " ++ typeStr a)

/-- The expressions whose evaluation the thunk-forcing fragment models:
a literal, or a variable bound to a thunk (the `AST_VAR` dispatch case of
vm.cpp, with the binding lookup already resolved to the thunk it yields). -/
inductive TExprRef where
  | lit (n : Nat)
  | var (t : Nat)
deriving DecidableEq

/-- Modelled from the spec: a `HeapThunk` as the forcing discipline sees
it, `state.h` being outside the sources: a `filled` flag, the cached
content once forced, and the body expression.  (Contents are bare numbers,
the payload being irrelevant to the discipline.) -/
structure ThunkCell where
  filled : Bool
  content : Nat
  body : TExprRef
deriving DecidableEq

/-- `HeapThunk::fill` applied to the thunk at index `t`, modelled from the
spec: on the matching pop of the CALL frame that forced the thunk, the
scratch value `v` is copied into the thunk's slot and `filled` is set. -/
def fillT (v : Nat) : Nat → List ThunkCell → List ThunkCell
  | _, [] => []
  | 0, c :: rest => { c with filled := true, content := v } :: rest
  | n + 1, c :: rest => c :: fillT v n rest

/-- The thunk-forcing discipline of the evaluator (the `AST_VAR` dispatch
case together with the `HeapThunk` branch of the `FRAME_CALL` handler,
vm.cpp), written as the direct recursion the explicit CALL-frame stack
encodes.  `fuel` bounds the depth exactly as the CALL-frame limit does.
A filled thunk read returns the cached content with no new CALL frame; an
unfilled one is entered through a CALL frame whose context is the thunk,
and on the matching pop the result is stored by `fillT`.  The returned
list records each thunk filled during the run, in fill order. -/
def forceEval : Nat → TExprRef → List ThunkCell →
    Option (List ThunkCell × Nat × List Nat)
  | _, TExprRef.lit n, h => some (h, n, [])
  | 0, TExprRef.var _, _ => none
  | fuel + 1, TExprRef.var t, h =>
    match h.get? t with
    | none => none
    | some c =>
      if c.filled then some (h, c.content, [])
      else
        match forceEval fuel c.body h with
        | none => none
        | some (h₁, v, fs) => some (fillT v t h₁, v, fs ++ [t])

/-- The chain of unfilled thunks the forcing of thunk `t` walks through:
follow bodies while the referenced thunk is unfilled, stopping at a
literal body or a filled thunk.  Returns the thunks visited (innermost
first, which is fill order) and the resulting value. -/
def chase : Nat → Nat → List ThunkCell → Option (List Nat × Nat)
  | 0, _, _ => none
  | fuel + 1, t, h =>
    match h.get? t with
    | none => none
    | some c =>
      if c.filled then some ([], c.content)
      else
        match c.body with
        | TExprRef.lit n => some ([t], n)
        | TExprRef.var u =>
          match chase fuel u h with
          | none => none
          | some (p, v) => some (p ++ [t], v)

/-- The big-step evaluation relation corresponding to `forceEval`: the
semantics of the thunk-forcing fragment as a relation between an
expression, an initial heap, and the final heap, value and fill record.
`jsonnet_vm_execute` runs exactly this machine (extended to the full
language), so two runs are two derivations of this relation. -/
inductive EvalRel : TExprRef → List ThunkCell →
    List ThunkCell × Nat × List Nat → Prop where
  | lit (n : Nat) (h : List ThunkCell) : EvalRel (TExprRef.lit n) h (h, n, [])
  | cached (t : Nat) (h : List ThunkCell) (c : ThunkCell)
      (hget : h.get? t = some c) (hfill : c.filled = true) :
      EvalRel (TExprRef.var t) h (h, c.content, [])
  | force (t : Nat) (h h₁ : List ThunkCell) (c : ThunkCell) (v : Nat)
      (fs : List Nat) (hget : h.get? t = some c) (hfill : c.filled = false)
      (hbody : EvalRel c.body h (h₁, v, fs)) :
      EvalRel (TExprRef.var t) h (fillT v t h₁, v, fs ++ [t])

theorem alookup_append (q : Ident) (l₁ l₂ : List (Ident × γ)) :
    alookup q (l₁ ++ l₂) =
      match alookup q l₁ with
      | some v => some v
      | none => alookup q l₂ := by
  induction l₁ with
  | nil => simp [alookup]
  | cons p rest ih =>
    simp only [List.cons_append, alookup]
    by_cases h : p.1 = q
    · simp [h]
    · simp [h, ih]

theorem alookup_none_of_not_mem (q : Ident) (l : List (Ident × γ))
    (h : q ∉ l.map Prod.fst) : alookup q l = none := by
  induction l with
  | nil => rfl
  | cons p rest ih =>
    simp only [List.map_cons, List.mem_cons] at h
    push_neg at h
    simp only [alookup]
    rw [if_neg (fun hh => h.1 hh.symm)]
    exact ih h.2

theorem alookup_map_val (q : Ident) (l : List (Ident × γ)) (g : γ → δ) :
    alookup q (l.map (fun p => (p.1, g p.2))) = (alookup q l).map g := by
  induction l with
  | nil => rfl
  | cons p rest ih =>
    simp only [List.map_cons, alookup]
    by_cases h : p.1 = q
    · simp [h]
    · simp [h, ih]

theorem alookup_map_overwrite (k : Ident) (v : γ) (l : List (Ident × γ))
    (q : Ident) :
    alookup q (l.map (fun pr => if pr.1 = k then (k, v) else pr)) =
      if q = k then (if (alookup k l).isSome then some v else none)
      else alookup q l := by
  induction l with
  | nil => by_cases hq : q = k <;> simp [alookup, hq]
  | cons p rest ih =>
    simp only [List.map_cons]
    by_cases hpk : p.1 = k
    · rw [if_pos hpk]
      by_cases hq : q = k
      · simp [alookup, hq, hpk]
      · simp only [alookup]
        rw [if_neg (fun hh : k = q => hq hh.symm), ih,
          if_neg (fun hh : p.1 = q => hq (hpk ▸ hh).symm)]
        simp [hq]
    · rw [if_neg hpk]
      by_cases hq2 : p.1 = q
      · have hqk : ¬ q = k := fun hh => hpk (hq2.trans hh)
        simp [alookup, hq2, hqk]
      · simp only [alookup]
        rw [if_neg hq2, ih, if_neg hq2]
        by_cases hq : q = k
        · simp [hq, alookup, hpk]
        · simp [hq]

theorem alookup_aset (k : Ident) (v : γ) (l : List (Ident × γ)) (q : Ident) :
    alookup q (aset k v l) = if q = k then some v else alookup q l := by
  unfold aset
  by_cases hp : (alookup k l).isSome
  · rw [if_pos hp, alookup_map_overwrite]
    by_cases hq : q = k <;> simp [hq, hp]
  · rw [if_neg hp, alookup_append]
    by_cases hq : q = k
    · subst hq
      rw [Option.not_isSome_iff_eq_none] at hp
      simp [hp, alookup]
    · cases hql : alookup q l with
      | some w => simp [hq]
      | none => simp [alookup, hq, show ¬ k = q from fun hh => hq hh.symm]

theorem specFindFrom_append {α β : Type} (f : Ident) (k : Nat)
    (xs ys : List (ObjTree α β)) (i : Nat) :
    specFindFrom f k (xs ++ ys) i =
      match specFindFrom f k xs i with
      | some r => some r
      | none => specFindFrom f k ys (i + xs.length) := by
  induction xs generalizing i with
  | nil => simp [specFindFrom]
  | cons t ts ih =>
    simp only [List.cons_append, specFindFrom, List.append_eq]
    by_cases h : k ≤ i ∧ leafHas f t = true
    · simp [h]
    · rw [if_neg h, if_neg h, ih (i + 1)]
      cases hs : specFindFrom f k ts (i + 1) with
      | some r => simp
      | none =>
        simp only
        congr 1
        simp only [List.length_cons]
        omega

theorem specFindFrom_found {α β : Type} {f : Ident} {k : Nat}
    {l : List (ObjTree α β)} {i j : Nat} {leaf : ObjTree α β}
    (h : specFindFrom f k l i = some (j, leaf)) :
    k ≤ j ∧ leafHas f leaf = true := by
  induction l generalizing i with
  | nil => simp [specFindFrom] at h
  | cons t ts ih =>
    simp only [specFindFrom] at h
    split at h
    · next hc =>
      cases h
      exact hc
    · exact ih h

theorem findObject_eq_specFindFrom {α β : Type} (f : Ident)
    (root : ObjTree α β) (t : ObjTree α β) (k c : Nat) :
    findObject f root t k c =
      match specFindFrom f k (leaves t) c with
      | some (i, leaf) => (i, some (leaf, root))
      | none => (c + (leaves t).length, none) := by
  induction t generalizing c with
  | simple fields ups asserts =>
    simp only [findObject, leaves, specFindFrom, leafHas]
    by_cases h : k ≤ c ∧ (alookup f fields).isSome = true
    · simp [h]
    · simp [h]
  | comp vals idv vv ups =>
    simp only [findObject, leaves, specFindFrom, leafHas]
    by_cases h : k ≤ c ∧ (alookup f vals).isSome = true
    · simp [h]
    · simp [h]
  | ext l r ihl ihr =>
    simp only [findObject, leaves]
    rw [ihr c, specFindFrom_append]
    cases hr : specFindFrom f k (leaves r) c with
    | some p =>
      cases p with
      | mk i leaf => simp
    | none =>
      simp only
      rw [ihl (c + (leaves r).length)]
      cases hl : specFindFrom f k (leaves l) (c + (leaves r).length) with
      | some p =>
        cases p with
        | mk i leaf => simp
      | none =>
        simp only [List.length_append]
        congr 1
        omega

theorem objectIndex_notFound {α β : Type} {obj : ObjTree α β} {f : Ident}
    {k : Nat} (h : specFindFrom f k (leaves obj) 0 = none) :
    objectIndex obj f k = IndexResult.err ("Field does not exist: " ++ f) := by
  unfold objectIndex
  rw [findObject_eq_specFindFrom, h]

theorem objectIndex_found_simple {α β : Type} {obj : ObjTree α β} {f : Ident}
    {k i : Nat} {fields : List (Ident × Hide × α)}
    {ups : List (Ident × β)} {asserts : List α}
    (h : specFindFrom f k (leaves obj) 0 =
      some (i, ObjTree.simple fields ups asserts)) :
    ∃ fld, alookup f fields = some fld ∧
      objectIndex obj f k =
        IndexResult.call (ObjTree.simple fields ups asserts) obj i ups
          fld.2 := by
  have hhas := (specFindFrom_found h).2
  simp only [leafHas, Option.isSome_iff_exists] at hhas
  obtain ⟨fld, hfld⟩ := hhas
  refine ⟨fld, hfld, ?_⟩
  unfold objectIndex
  rw [findObject_eq_specFindFrom, h]
  simp [hfld]

theorem objectIndex_found_comp {α β : Type} {obj : ObjTree α β} {f : Ident}
    {k i : Nat} {vals : List (Ident × β)} {idv : Ident} {vv : α}
    {ups : List (Ident × β)}
    (h : specFindFrom f k (leaves obj) 0 =
      some (i, ObjTree.comp vals idv vv ups)) :
    ∃ th, alookup f vals = some th ∧
      objectIndex obj f k =
        IndexResult.call (ObjTree.comp vals idv vv ups) obj i
          (aset idv th ups) vv := by
  have hhas := (specFindFrom_found h).2
  simp only [leafHas, Option.isSome_iff_exists] at hhas
  obtain ⟨th, hth⟩ := hhas
  refine ⟨th, hth, ?_⟩
  unfold objectIndex
  rw [findObject_eq_specFindFrom, h]
  simp [hth]

/-- Claim C1: for every index of a field `f` on an object value starting
from super-offset `k`, the prototype tree is traversed depth-first with
the right subtree before the left (`specFindFrom` over `leaves`, which
lists the right subtree's leaves first, encodes exactly that traversal),
the first `k` leaves are skipped, and the first subsequent leaf whose
field map contains `f` is selected; a CALL frame is pushed whose self is
the original root object (not the selected leaf) and whose super-offset
equals the number of leaves skipped before the selected leaf, with
bindings taken from the leaf's captured environment (a comprehension leaf
additionally binds its loop variable); if no leaf at or after position `k`
contains `f`, evaluation fails with `Field does not exist: <name>`. -/
theorem claim_C1 {α β : Type} (obj : ObjTree α β) (f : Ident) (k : Nat) :
    (specFindFrom f k (leaves obj) 0 = none →
      objectIndex obj f k = IndexResult.err ("Field does not exist: " ++ f))
    ∧ (∀ i fields ups asserts,
        specFindFrom f k (leaves obj) 0 =
            some (i, ObjTree.simple fields ups asserts) →
        k ≤ i ∧ ∃ fld, alookup f fields = some fld ∧
          objectIndex obj f k =
            IndexResult.call (ObjTree.simple fields ups asserts) obj i ups
              fld.2)
    ∧ (∀ i vals idv vv ups,
        specFindFrom f k (leaves obj) 0 =
            some (i, ObjTree.comp vals idv vv ups) →
        k ≤ i ∧ ∃ th, alookup f vals = some th ∧
          objectIndex obj f k =
            IndexResult.call (ObjTree.comp vals idv vv ups) obj i
              (aset idv th ups) vv) := by
  refine ⟨fun h => objectIndex_notFound h, ?_, ?_⟩
  · intro i fields ups asserts h
    exact ⟨(specFindFrom_found h).1, objectIndex_found_simple h⟩
  · intro i vals idv vv ups h
    exact ⟨(specFindFrom_found h).1, objectIndex_found_comp h⟩

/-- Witness for claim C1 on the composite `{a: 1} + {b: 2}` indexed at
`a` from offset 0: the right leaf is skipped (it lacks `a`), the left
leaf is selected at position 1, and the CALL frame carries the root as
self and 1 as super-offset. -/
theorem claim_C1_witness :
    (0:Nat) ≤ 1 ∧ ∃ fld,
      alookup "a" [("a", (Hide.visible, (1 : Nat)))] = some fld ∧
      objectIndex
          (ObjTree.ext
            (ObjTree.simple [("a", (Hide.visible, 1))]
              ([] : List (Ident × Nat)) [])
            (ObjTree.simple [("b", (Hide.visible, 2))] [] []))
          "a" 0 =
        IndexResult.call (ObjTree.simple [("a", (Hide.visible, 1))] [] [])
          (ObjTree.ext
            (ObjTree.simple [("a", (Hide.visible, 1))] [] [])
            (ObjTree.simple [("b", (Hide.visible, 2))] [] []))
          1 [] fld.2 :=
  (claim_C1
      (ObjTree.ext
        (ObjTree.simple [("a", (Hide.visible, 1))]
          ([] : List (Ident × Nat)) [])
        (ObjTree.simple [("b", (Hide.visible, 2))] [] []))
      "a" 0).2.1 1 [("a", (Hide.visible, 1))] [] [] (by decide)

theorem alookup_mergeStep (r : List (Ident × Hide)) (p : Ident × Hide)
    (q : Ident) :
    alookup q (mergeStep r p) =
      if q = p.1 then
        match alookup p.1 r with
        | none => some p.2
        | some h => if h = Hide.inherit then some p.2 else some h
      else alookup q r := by
  unfold mergeStep
  cases hr : alookup p.1 r with
  | none =>
    rw [alookup_append]
    by_cases hq : q = p.1
    · subst hq
      rw [hr]
      simp [alookup]
    · rw [if_neg hq]
      cases hql : alookup q r with
      | some w => simp
      | none => simp [alookup, show ¬ p.1 = q from fun hh => hq hh.symm]
  | some h =>
    by_cases hh : h = Hide.inherit
    · subst hh
      by_cases hq : q = p.1 <;> simp [hq, alookup_aset]
    · by_cases hq : q = p.1
      · subst hq
        simp [hh, hr]
      · simp [hq, hh]

theorem alookup_mergeHide_notin (r L : List (Ident × Hide)) (q : Ident)
    (h : ∀ p ∈ L, p.1 ≠ q) :
    alookup q (mergeHide r L) = alookup q r := by
  induction L generalizing r with
  | nil => rfl
  | cons p L' ih =>
    rw [show mergeHide r (p :: L') = mergeHide (mergeStep r p) L' from rfl,
      ih _ (fun x hx => h x (List.mem_cons_of_mem _ hx)), alookup_mergeStep,
      if_neg (fun he : q = p.1 => (h p (List.mem_cons_self _ _)) he.symm)]

theorem alookup_mergeHide (r L : List (Ident × Hide)) (f : Ident)
    (hnd : (L.map Prod.fst).Nodup) :
    alookup f (mergeHide r L) =
      match alookup f r, alookup f L with
      | some h, some h' => some (if h = Hide.inherit then h' else h)
      | some h, none => some h
      | none, some h' => some h'
      | none, none => none := by
  induction L generalizing r with
  | nil =>
    cases hr : alookup f r <;> simp [mergeHide, alookup, hr]
  | cons p L' ih =>
    simp only [List.map_cons, List.nodup_cons] at hnd
    rw [show mergeHide r (p :: L') = mergeHide (mergeStep r p) L' from rfl]
    by_cases hq : f = p.1
    · have hnotin : ∀ x ∈ L', x.1 ≠ f := by
        intro x hx he
        exact hnd.1 (by rw [← hq, ← he]; exact List.mem_map_of_mem Prod.fst hx)
      rw [alookup_mergeHide_notin _ _ _ hnotin, alookup_mergeStep, if_pos hq]
      have hL : alookup f (p :: L') = some p.2 := by
        simp [alookup, show p.1 = f from hq.symm]
      rw [hL, hq]
      cases hr : alookup p.1 r with
      | none => simp
      | some h => by_cases hh : h = Hide.inherit <;> simp [hh]
    · rw [ih _ hnd.2, alookup_mergeStep, if_neg hq]
      have hL : alookup f (p :: L') = alookup f L' := by
        simp [alookup, show ¬ p.1 = f from fun hh => hq hh.symm]
      rw [hL]

theorem objectFields_skip0 {α β : Type} (m : Bool) (t : ObjTree α β) (c : Nat) :
    objectFields m 0 t c = (c + countLeaves t, (objectFields m 0 t 0).2) := by
  induction t generalizing c with
  | simple fields ups asserts => simp [objectFields, countLeaves]
  | comp vals idv vv ups => simp [objectFields, countLeaves]
  | ext l r ihl ihr =>
    simp only [objectFields, countLeaves]
    rw [ihr c, ihl (c + countLeaves r), ihr 0, ihl (0 + countLeaves r)]
    simp only [Prod.mk.injEq]
    exact ⟨by omega, trivial⟩

theorem hideMap_ext {α β : Type} (m : Bool) (l r : ObjTree α β) :
    hideMap m (ObjTree.ext l r) = mergeHide (hideMap m r) (hideMap m l) := by
  unfold hideMap
  simp only [objectFields]
  rw [objectFields_skip0 m r 0, objectFields_skip0 m l (0 + countLeaves r)]

theorem mem_fieldSet_iff (l : List (Ident × Hide)) (f : Ident)
    (hnd : (l.map Prod.fst).Nodup) :
    (f ∈ (l.filter (fun p => p.2 ≠ Hide.hidden)).map (fun p => p.1)) ↔
      ∃ h, alookup f l = some h ∧ h ≠ Hide.hidden := by
  induction l with
  | nil => simp [alookup]
  | cons p rest ih =>
    simp only [List.map_cons, List.nodup_cons] at hnd
    by_cases hq : p.1 = f
    · have hrest : alookup f rest = none :=
        alookup_none_of_not_mem f rest (by rw [← hq]; exact hnd.1)
      have hnotmem :
          f ∉ (rest.filter (fun p => p.2 ≠ Hide.hidden)).map (fun p => p.1) := by
        intro hmem
        obtain ⟨h, hh, _⟩ := (ih hnd.2).mp hmem
        rw [hrest] at hh
        exact Option.noConfusion hh
      by_cases hp : p.2 = Hide.hidden
      · rw [List.filter_cons_of_neg (by simp [hp])]
        simp only [alookup, show p.1 = f from hq, if_pos rfl]
        constructor
        · intro hmem
          exact absurd hmem hnotmem
        · rintro ⟨h, hh, hne⟩
          cases hh
          exact absurd hp hne
      · rw [List.filter_cons_of_pos (by simp [hp])]
        simp only [List.map_cons, List.mem_cons]
        constructor
        · intro _
          exact ⟨p.2, by simp [alookup, show p.1 = f from hq], hp⟩
        · intro _
          exact Or.inl hq.symm
    · have hL : alookup f (p :: rest) = alookup f rest := by
        simp [alookup, hq]
      by_cases hp : p.2 = Hide.hidden
      · rw [List.filter_cons_of_neg (by simp [hp]), hL]
        exact ih hnd.2
      · rw [List.filter_cons_of_pos (by simp [hp]), hL]
        simp only [List.map_cons, List.mem_cons]
        constructor
        · intro hmem
          rcases hmem with he | hm
          · exact absurd he.symm hq
          · exact (ih hnd.2).mp hm
        · intro hex
          exact Or.inr ((ih hnd.2).mpr hex)

theorem alookup_mergeHide_some (r L : List (Ident × Hide)) (f : Ident)
    (h : Hide) (hm : alookup f (mergeHide r L) = some h) :
    (alookup f r).isSome = true ∨ (alookup f L).isSome = true := by
  induction L generalizing r h with
  | nil =>
    left
    rw [show mergeHide r [] = r from rfl] at hm
    simp [hm]
  | cons p L' ih =>
    rw [show mergeHide r (p :: L') = mergeHide (mergeStep r p) L' from rfl]
      at hm
    rcases ih _ _ hm with hr | hl
    · rw [alookup_mergeStep] at hr
      by_cases hq : f = p.1
      · right
        simp [alookup, show p.1 = f from hq.symm]
      · left
        rwa [if_neg hq] at hr
    · right
      simp only [alookup]
      by_cases hpf : p.1 = f
      · simp [hpf]
      · simpa [hpf] using hl

theorem alookup_objmap (q : Ident) {α : Type}
    (fields : List (Ident × Hide × α)) (m : Bool) :
    (alookup q
        (fields.map (fun p => (p.1, if m then p.2.1 else Hide.visible)))).isSome
      = (alookup q fields).isSome := by
  induction fields with
  | nil => rfl
  | cons p rest ih =>
    simp only [List.map_cons, alookup]
    by_cases h : p.1 = q <;> simp [h, ih]

theorem alookup_constmap (q : Ident) {β : Type} (vals : List (Ident × β))
    (h : Hide) :
    (alookup q (vals.map (fun p => (p.1, h)))).isSome
      = (alookup q vals).isSome := by
  induction vals with
  | nil => rfl
  | cons p rest ih =>
    simp only [List.map_cons, alookup]
    by_cases hh : p.1 = q <;> simp [hh, ih]

theorem alookup_hideMap_leafHas {α β : Type} (m : Bool) (obj : ObjTree α β)
    (f : Ident) (hl : (alookup f (hideMap m obj)).isSome = true) :
    ∃ leaf, leaf ∈ leaves obj ∧ leafHas f leaf = true := by
  induction obj with
  | simple fields ups asserts =>
    refine ⟨ObjTree.simple fields ups asserts, by simp [leaves], ?_⟩
    unfold hideMap at hl
    simp only [objectFields] at hl
    rw [if_neg (by omega)] at hl
    simp only at hl
    rw [alookup_objmap] at hl
    simpa [leafHas] using hl
  | comp vals idv vv ups =>
    refine ⟨ObjTree.comp vals idv vv ups, by simp [leaves], ?_⟩
    unfold hideMap at hl
    simp only [objectFields] at hl
    rw [if_neg (by omega)] at hl
    simp only at hl
    rw [alookup_constmap] at hl
    simpa [leafHas] using hl
  | ext l r ihl ihr =>
    rw [hideMap_ext] at hl
    rw [Option.isSome_iff_exists] at hl
    obtain ⟨h, hh⟩ := hl
    rcases alookup_mergeHide_some _ _ _ _ hh with hr | hlx
    · obtain ⟨leaf, hmem, hhas⟩ := ihr hr
      exact ⟨leaf, by simp [leaves, hmem], hhas⟩
    · obtain ⟨leaf, hmem, hhas⟩ := ihl hlx
      exact ⟨leaf, by simp [leaves, hmem], hhas⟩

theorem specFindFrom_zero_isSome {α β : Type} (f : Ident)
    (L : List (ObjTree α β)) (i : Nat) (leaf : ObjTree α β)
    (hmem : leaf ∈ L) (hhas : leafHas f leaf = true) :
    (specFindFrom f 0 L i).isSome = true := by
  induction L generalizing i with
  | nil => cases hmem
  | cons t ts ih =>
    simp only [specFindFrom]
    by_cases hc : (0 : Nat) ≤ i ∧ leafHas f t = true
    · simp [hc]
    · rw [if_neg hc]
      rcases List.mem_cons.mp hmem with he | hm
      · exact absurd ⟨Nat.zero_le _, he ▸ hhas⟩ hc
      · exact ih (i + 1) hm

/-- Claim C2: for every composite object, the hide kind of a field
collected for manifestation merges the leaves right to left: when a field
occurs on both sides the right side's hide kind is kept unless it is
`Inherit`, in which case the left side's hide kind replaces it; and a
field whose merged hide kind is `Hidden` is omitted from the
manifestation field set but remains readable through explicit indexing
(the index succeeds with a CALL frame).  The no-duplicate hypothesis on
the field maps reflects that `std::map` keys are unique. -/
theorem claim_C2 {α β : Type} :
    (∀ (l r : ObjTree α β) (f : Ident),
      ((hideMap true l).map Prod.fst).Nodup →
      alookup f (hideMap true (ObjTree.ext l r)) =
        match alookup f (hideMap true r), alookup f (hideMap true l) with
        | some h, some h' => some (if h = Hide.inherit then h' else h)
        | some h, none => some h
        | none, some h' => some h'
        | none, none => none)
    ∧ (∀ (obj : ObjTree α β) (f : Ident),
        ((hideMap true obj).map Prod.fst).Nodup →
        alookup f (hideMap true obj) = some Hide.hidden →
        f ∉ objectFieldsSet obj true ∧
          ∃ ctx slf off binds body,
            objectIndex obj f 0 = IndexResult.call ctx slf off binds body) := by
  constructor
  · intro l r f hnd
    rw [hideMap_ext, alookup_mergeHide _ _ _ hnd]
  · intro obj f hnd hhid
    constructor
    · intro hmem
      unfold objectFieldsSet at hmem
      obtain ⟨h, hh, hne⟩ := (mem_fieldSet_iff _ _ hnd).mp hmem
      rw [hhid] at hh
      cases hh
      exact hne rfl
    · have hsome : (alookup f (hideMap true obj)).isSome = true := by
        simp [hhid]
      obtain ⟨leaf, hmem, hhas⟩ := alookup_hideMap_leafHas true obj f hsome
      have hfind := specFindFrom_zero_isSome f (leaves obj) 0 leaf hmem hhas
      rw [Option.isSome_iff_exists] at hfind
      obtain ⟨⟨i, fleaf⟩, hsf⟩ := hfind
      have hhasf := (specFindFrom_found hsf).2
      cases fleaf with
      | simple fields ups asserts =>
        obtain ⟨fld, _, heq⟩ := objectIndex_found_simple hsf
        exact ⟨_, _, _, _, _, heq⟩
      | comp vals idv vv ups =>
        obtain ⟨th, _, heq⟩ := objectIndex_found_comp hsf
        exact ⟨_, _, _, _, _, heq⟩
      | ext a b => simp [leafHas] at hhasf

/-- Witness for claim C2: in `{a:: 1} + {a: 2, b:: 3}` (left declares `a`
visible, right declares `a` inherited and `b` hidden) the merged hide of
`a` follows the merge rule, and the hidden field `b` of
`{} + {a: 2, b:: 3}` is absent from the manifestation set yet still
indexable. -/
theorem claim_C2_witness :
    (alookup "a"
        (hideMap true
          (ObjTree.ext
            (ObjTree.simple [("a", (Hide.visible, (1 : Nat)))]
              ([] : List (Ident × Nat)) [])
            (ObjTree.simple
              [("a", (Hide.inherit, 2)), ("b", (Hide.hidden, 3))] [] []))) =
      match
        alookup "a"
          (hideMap true
            (ObjTree.simple
              [("a", (Hide.inherit, (2 : Nat))), ("b", (Hide.hidden, 3))]
              ([] : List (Ident × Nat)) [])),
        alookup "a"
          (hideMap true
            (ObjTree.simple [("a", (Hide.visible, (1 : Nat)))]
              ([] : List (Ident × Nat)) []))
      with
      | some h, some h' => some (if h = Hide.inherit then h' else h)
      | some h, none => some h
      | none, some h' => some h'
      | none, none => none)
    ∧ ("b" ∉
        objectFieldsSet
          (ObjTree.ext
            (ObjTree.simple ([] : List (Ident × Hide × Nat))
              ([] : List (Ident × Nat)) [])
            (ObjTree.simple
              [("a", (Hide.inherit, 2)), ("b", (Hide.hidden, 3))] [] []))
          true ∧
       ∃ ctx slf off binds body,
         objectIndex
            (ObjTree.ext
              (ObjTree.simple ([] : List (Ident × Hide × Nat))
                ([] : List (Ident × Nat)) [])
              (ObjTree.simple
                [("a", (Hide.inherit, 2)), ("b", (Hide.hidden, 3))] [] []))
            "b" 0 =
          IndexResult.call ctx slf off binds body) :=
  ⟨(claim_C2).1 _ _ "a" (by decide), (claim_C2).2 _ "b" (by decide) (by decide)⟩

/-- Claim C3: evaluating `super[e]` bumps the current self binding's
super-offset by one; under the invariant that the current offset is below
the leaf count of self, the evaluation fails with
`Attempt to use super when there is no super class.` exactly when the
bumped offset equals the leaf count, and otherwise the field named by the
string value of `e` is looked up on self starting from the bumped
offset. -/
theorem claim_C3 {α β : Type} (self : ObjTree α β) (offset : Nat)
    (scratch : Value) (hinv : offset < countLeaves self) :
    (offset + 1 = countLeaves self →
      superIndexStep self offset scratch =
        IndexResult.err "Attempt to use super when there is no super class.")
    ∧ (∀ s, offset + 1 < countLeaves self → scratch = Value.vstring s →
        superIndexStep self offset scratch =
          objectIndex self s (offset + 1)) := by
  constructor
  · intro heq
    unfold superIndexStep
    rw [if_pos (by omega)]
  · intro s hlt hs
    subst hs
    unfold superIndexStep
    rw [if_neg (by omega)]

/-- Witness for claim C3 on `{a: 0} + {a: 1}` with current offset 0 and
index string `a`: the bumped offset 1 is below the leaf count 2, so the
lookup proceeds from offset 1. -/
theorem claim_C3_witness :
    (0 + 1 =
        countLeaves
          (ObjTree.ext
            (ObjTree.simple [("a", (Hide.inherit, (0 : Nat)))]
              ([] : List (Ident × Nat)) [])
            (ObjTree.simple [("a", (Hide.inherit, 1))] [] [])) →
      superIndexStep
          (ObjTree.ext
            (ObjTree.simple [("a", (Hide.inherit, (0 : Nat)))]
              ([] : List (Ident × Nat)) [])
            (ObjTree.simple [("a", (Hide.inherit, 1))] [] []))
          0 (Value.vstring "a") =
        IndexResult.err "Attempt to use super when there is no super class.")
    ∧ (∀ s,
        0 + 1 <
            countLeaves
              (ObjTree.ext
                (ObjTree.simple [("a", (Hide.inherit, (0 : Nat)))]
                  ([] : List (Ident × Nat)) [])
                (ObjTree.simple [("a", (Hide.inherit, 1))] [] [])) →
        Value.vstring "a" = Value.vstring s →
        superIndexStep
            (ObjTree.ext
              (ObjTree.simple [("a", (Hide.inherit, (0 : Nat)))]
                ([] : List (Ident × Nat)) [])
              (ObjTree.simple [("a", (Hide.inherit, 1))] [] []))
            0 (Value.vstring "a") =
          objectIndex
            (ObjTree.ext
              (ObjTree.simple [("a", (Hide.inherit, (0 : Nat)))]
                ([] : List (Ident × Nat)) [])
              (ObjTree.simple [("a", (Hide.inherit, 1))] [] []))
            s (0 + 1)) :=
  claim_C3
    (ObjTree.ext
      (ObjTree.simple [("a", (Hide.inherit, (0 : Nat)))]
        ([] : List (Ident × Nat)) [])
      (ObjTree.simple [("a", (Hide.inherit, 1))] [] []))
    0 (Value.vstring "a") (by decide)

theorem trimScan_locals (pre : List StackFrame) (f : StackFrame)
    (rest : List StackFrame) (hpre : ∀ g ∈ pre, g.kind = FrameKind.fLocal)
    (hf : f.kind ≠ FrameKind.fLocal) :
    trimScan (pre ++ f :: rest) =
      if f.kind = FrameKind.fCall then
        (if f.tailCall = true ∧ f.thunks = [] then some rest else none)
      else none := by
  induction pre with
  | nil =>
    simp only [List.nil_append, trimScan]
    cases hk : f.kind with
    | fCall =>
      simp only
      by_cases ht : f.tailCall <;> by_cases hth : f.thunks = [] <;>
        simp [ht, hth, List.length_pos]
    | fLocal => exact absurd hk hf
    | fApplyTarget => simp
    | fBinaryLeft => simp
    | fBinaryRight => simp
    | fBuiltinFilter => simp
    | fBuiltinForceThunks => simp
    | fError => simp
    | fIf => simp
    | fIndexTarget => simp
    | fIndexIndex => simp
    | fInvariants => simp
    | fObject => simp
    | fObjectCompArray => simp
    | fObjectCompElement => simp
    | fStringConcat => simp
    | fSuperIndex => simp
    | fUnary => simp
  | cons g pre' ih =>
    have hg : g.kind = FrameKind.fLocal := hpre g (List.mem_cons_self _ _)
    simp only [List.cons_append, trimScan, hg]
    exact ih (fun x hx => hpre x (List.mem_cons_of_mem _ hx))

/-- Claim C4: when a new CALL frame is about to be opened and the nearest
CALL frame below the top is flagged `tailCall` with no pending argument
thunks and only LOCAL frames above it, that CALL frame and every frame
above it are removed and the live CALL count is decremented by one; a
non-qualifying CALL frame, or any frame kind other than LOCAL or CALL met
first, leaves the stack untouched; and `newCall` performs this trim before
pushing the new frame. -/
theorem claim_C4 (pre : List StackFrame) (f : StackFrame)
    (rest : List StackFrame) (calls limit : Nat)
    (hpre : ∀ g ∈ pre, g.kind = FrameKind.fLocal) :
    (f.kind = FrameKind.fCall → f.tailCall = true → f.thunks = [] →
      tailCallTrimStack ⟨calls, limit, pre ++ f :: rest⟩ =
        ⟨calls - 1, limit, rest⟩)
    ∧ (f.kind = FrameKind.fCall → ¬(f.tailCall = true ∧ f.thunks = []) →
      tailCallTrimStack ⟨calls, limit, pre ++ f :: rest⟩ =
        ⟨calls, limit, pre ++ f :: rest⟩)
    ∧ (f.kind ≠ FrameKind.fCall → f.kind ≠ FrameKind.fLocal →
      tailCallTrimStack ⟨calls, limit, pre ++ f :: rest⟩ =
        ⟨calls, limit, pre ++ f :: rest⟩)
    ∧ (∀ (st : VMStack) (c s : Option Nat) (o : Nat)
        (b : List (Ident × Nat)),
      newCall st c s o b =
        if (tailCallTrimStack st).limit ≤ (tailCallTrimStack st).calls then
          Except.error "Max stack frames exceeded."
        else
          Except.ok (pushCallFrame (tailCallTrimStack st) c s o b)) := by
  have hnl : f.kind = FrameKind.fCall → f.kind ≠ FrameKind.fLocal := by
    intro hk h
    rw [hk] at h
    cases h
  refine ⟨?_, ?_, ?_, fun st c s o b => rfl⟩
  · intro hk ht hth
    unfold tailCallTrimStack
    rw [trimScan_locals pre f rest hpre (hnl hk)]
    simp [hk, ht, hth]
  · intro hk hnot
    unfold tailCallTrimStack
    rw [trimScan_locals pre f rest hpre (hnl hk)]
    simp [hk, hnot]
  · intro hk hl
    unfold tailCallTrimStack
    rw [trimScan_locals pre f rest hpre hl]
    simp [hk]

/-- Witness for claim C4: a qualifying tail-call CALL frame under one
LOCAL frame is removed together with the LOCAL frame, the CALL count
dropping from 1 to 0. -/
theorem claim_C4_witness :
    (StackFrame.kind
          { kind := FrameKind.fCall, tailCall := true, thunks := [],
            bindings := [], selfRef := none, offset := 0, context := none } =
        FrameKind.fCall →
      StackFrame.tailCall
          { kind := FrameKind.fCall, tailCall := true, thunks := [],
            bindings := [], selfRef := none, offset := 0, context := none } =
        true →
      StackFrame.thunks
          { kind := FrameKind.fCall, tailCall := true, thunks := [],
            bindings := [], selfRef := none, offset := 0, context := none } =
        [] →
      tailCallTrimStack
          ⟨1, 10,
            [defaultFrame FrameKind.fLocal] ++
              { kind := FrameKind.fCall, tailCall := true, thunks := [],
                bindings := [], selfRef := none, offset := 0,
                context := none } :: []⟩ =
        ⟨1 - 1, 10, []⟩)
    ∧ (StackFrame.kind
          { kind := FrameKind.fCall, tailCall := true, thunks := [],
            bindings := [], selfRef := none, offset := 0, context := none } =
        FrameKind.fCall →
      ¬(StackFrame.tailCall
            { kind := FrameKind.fCall, tailCall := true, thunks := [],
              bindings := [], selfRef := none, offset := 0,
              context := none } =
          true ∧
        StackFrame.thunks
            { kind := FrameKind.fCall, tailCall := true, thunks := [],
              bindings := [], selfRef := none, offset := 0,
              context := none } =
          []) →
      tailCallTrimStack
          ⟨1, 10,
            [defaultFrame FrameKind.fLocal] ++
              { kind := FrameKind.fCall, tailCall := true, thunks := [],
                bindings := [], selfRef := none, offset := 0,
                context := none } :: []⟩ =
        ⟨1, 10,
          [defaultFrame FrameKind.fLocal] ++
            { kind := FrameKind.fCall, tailCall := true, thunks := [],
              bindings := [], selfRef := none, offset := 0,
              context := none } :: []⟩)
    ∧ (StackFrame.kind
          { kind := FrameKind.fCall, tailCall := true, thunks := [],
            bindings := [], selfRef := none, offset := 0, context := none } ≠
        FrameKind.fCall →
      StackFrame.kind
          { kind := FrameKind.fCall, tailCall := true, thunks := [],
            bindings := [], selfRef := none, offset := 0, context := none } ≠
        FrameKind.fLocal →
      tailCallTrimStack
          ⟨1, 10,
            [defaultFrame FrameKind.fLocal] ++
              { kind := FrameKind.fCall, tailCall := true, thunks := [],
                bindings := [], selfRef := none, offset := 0,
                context := none } :: []⟩ =
        ⟨1, 10,
          [defaultFrame FrameKind.fLocal] ++
            { kind := FrameKind.fCall, tailCall := true, thunks := [],
              bindings := [], selfRef := none, offset := 0,
              context := none } :: []⟩)
    ∧ (∀ (st : VMStack) (c s : Option Nat) (o : Nat)
        (b : List (Ident × Nat)),
      newCall st c s o b =
        if (tailCallTrimStack st).limit ≤ (tailCallTrimStack st).calls then
          Except.error "Max stack frames exceeded."
        else
          Except.ok (pushCallFrame (tailCallTrimStack st) c s o b)) :=
  claim_C4 [defaultFrame FrameKind.fLocal]
    { kind := FrameKind.fCall, tailCall := true, thunks := [],
      bindings := [], selfRef := none, offset := 0, context := none }
    [] 1 10 (by decide)

theorem countCalls_cons (f : StackFrame) (fs : List StackFrame) :
    countCalls (f :: fs) =
      if f.kind = FrameKind.fCall then countCalls fs + 1
      else countCalls fs := by
  unfold countCalls
  by_cases h : f.kind = FrameKind.fCall <;> simp [List.filter_cons, h]

theorem trimScan_counts (fs rest : List StackFrame)
    (h : trimScan fs = some rest) :
    countCalls fs = countCalls rest + 1 := by
  induction fs generalizing rest with
  | nil => cases h
  | cons f fs' ih =>
    simp only [trimScan] at h
    cases hk : f.kind with
    | fCall =>
      rw [hk] at h
      simp only at h
      split at h
      · cases h
      · cases h
        rw [countCalls_cons, if_pos hk]
    | fLocal =>
      rw [hk] at h
      simp only at h
      rw [countCalls_cons, if_neg (by rw [hk]; intro hc; cases hc)]
      exact ih rest h
    | fApplyTarget => rw [hk] at h; cases h
    | fBinaryLeft => rw [hk] at h; cases h
    | fBinaryRight => rw [hk] at h; cases h
    | fBuiltinFilter => rw [hk] at h; cases h
    | fBuiltinForceThunks => rw [hk] at h; cases h
    | fError => rw [hk] at h; cases h
    | fIf => rw [hk] at h; cases h
    | fIndexTarget => rw [hk] at h; cases h
    | fIndexIndex => rw [hk] at h; cases h
    | fInvariants => rw [hk] at h; cases h
    | fObject => rw [hk] at h; cases h
    | fObjectCompArray => rw [hk] at h; cases h
    | fObjectCompElement => rw [hk] at h; cases h
    | fStringConcat => rw [hk] at h; cases h
    | fSuperIndex => rw [hk] at h; cases h
    | fUnary => rw [hk] at h; cases h

theorem tailCallTrimStack_limit (st : VMStack) :
    (tailCallTrimStack st).limit = st.limit := by
  unfold tailCallTrimStack
  cases trimScan st.frames <;> rfl

theorem newCall_eq (st : VMStack) (c s : Option Nat) (o : Nat)
    (b : List (Ident × Nat)) :
    newCall st c s o b =
      if (tailCallTrimStack st).limit ≤ (tailCallTrimStack st).calls then
        Except.error "Max stack frames exceeded."
      else Except.ok (pushCallFrame (tailCallTrimStack st) c s o b) := rfl

theorem tailCallTrimStack_good (st : VMStack)
    (h : st.calls = countCalls st.frames) :
    (tailCallTrimStack st).calls = countCalls (tailCallTrimStack st).frames ∧
      (tailCallTrimStack st).calls ≤ st.calls := by
  unfold tailCallTrimStack
  cases hts : trimScan st.frames with
  | none => exact ⟨h, le_refl _⟩
  | some rest =>
    have hc := trimScan_counts _ _ hts
    simp only
    omega

theorem countCalls_replace_head (f g : StackFrame) (fs : List StackFrame)
    (h : g.kind = f.kind) :
    countCalls (g :: fs) = countCalls (f :: fs) := by
  rw [countCalls_cons, countCalls_cons, h]

theorem pop_good (st : VMStack)
    (hcnt : st.calls = countCalls st.frames) (hlim : st.calls ≤ st.limit) :
    (pop st).calls = countCalls (pop st).frames ∧
      (pop st).calls ≤ (pop st).limit ∧ (pop st).limit = st.limit := by
  unfold pop
  cases hf : st.frames with
  | nil => exact ⟨hcnt, hlim, rfl⟩
  | cons f rest =>
    rw [hf, countCalls_cons] at hcnt
    by_cases hk : f.kind = FrameKind.fCall
    · rw [if_pos hk] at hcnt
      refine ⟨?_, ?_, ?_⟩ <;> simp [hk] <;> omega
    · rw [if_neg hk] at hcnt
      refine ⟨?_, ?_, ?_⟩ <;> simp [hk] <;> omega

theorem markTailCall_good (st : VMStack)
    (hcnt : st.calls = countCalls st.frames) :
    (markTailCall st).calls = countCalls (markTailCall st).frames ∧
      (markTailCall st).calls = st.calls ∧
      (markTailCall st).limit = st.limit := by
  unfold markTailCall
  cases hf : st.frames with
  | nil => exact ⟨hcnt, rfl, rfl⟩
  | cons f rest =>
    rw [hf] at hcnt
    refine ⟨?_, rfl, rfl⟩
    simp only [countCalls_cons] at hcnt ⊢
    exact hcnt

theorem setTopThunks_good (st : VMStack) (ths : List Nat)
    (hcnt : st.calls = countCalls st.frames) :
    (setTopThunks st ths).calls = countCalls (setTopThunks st ths).frames ∧
      (setTopThunks st ths).calls = st.calls ∧
      (setTopThunks st ths).limit = st.limit := by
  unfold setTopThunks
  cases hf : st.frames with
  | nil => exact ⟨hcnt, rfl, rfl⟩
  | cons f rest =>
    rw [hf] at hcnt
    refine ⟨?_, rfl, rfl⟩
    simp only [countCalls_cons] at hcnt ⊢
    exact hcnt

theorem newCall_ok_good (st st₁ : VMStack) (c s : Option Nat) (o : Nat)
    (b : List (Ident × Nat))
    (hcnt : st.calls = countCalls st.frames)
    (hok : newCall st c s o b = Except.ok st₁) :
    st₁.calls = countCalls st₁.frames ∧ st₁.calls ≤ st₁.limit ∧
      st₁.limit = st.limit := by
  have htrim := tailCallTrimStack_good st hcnt
  have hlimt := tailCallTrimStack_limit st
  rw [newCall_eq] at hok
  split at hok
  · cases hok
  · next hle =>
    cases hok
    refine ⟨?_, ?_, ?_⟩
    · unfold pushCallFrame
      simp only
      rw [countCalls_cons, if_pos rfl, htrim.1]
    · unfold pushCallFrame
      simp only
      omega
    · unfold pushCallFrame
      simp only
      exact hlimt

theorem runOps_invariant (ops : List StackOp) (st st' : VMStack)
    (hops : ∀ k, StackOp.opNewFrame k ∈ ops → k ≠ FrameKind.fCall)
    (hcnt : st.calls = countCalls st.frames) (hlim : st.calls ≤ st.limit)
    (hrun : runOps ops st = Except.ok st') :
    st'.calls = countCalls st'.frames ∧ st'.calls ≤ st'.limit := by
  induction ops generalizing st with
  | nil =>
    cases hrun
    exact ⟨hcnt, hlim⟩
  | cons op ops' ih =>
    have hops' : ∀ k, StackOp.opNewFrame k ∈ ops' → k ≠ FrameKind.fCall :=
      fun k hk => hops k (List.mem_cons_of_mem _ hk)
    cases op with
    | opNewFrame k =>
      have hk : k ≠ FrameKind.fCall := hops k (List.mem_cons_self _ _)
      simp only [runOps] at hrun
      refine ih _ hops' ?_ ?_ hrun
      · unfold newFrame
        simp only
        rw [countCalls_cons, if_neg (by simp [defaultFrame, hk])]
        exact hcnt
      · exact hlim
    | opNewCall c s o b =>
      simp only [runOps] at hrun
      cases hnc : newCall st c s o b with
      | error e => rw [hnc] at hrun; cases hrun
      | ok st₁ =>
        rw [hnc] at hrun
        have hg := newCall_ok_good st st₁ c s o b hcnt hnc
        exact ih _ hops' hg.1 hg.2.1 hrun
    | opPop =>
      simp only [runOps] at hrun
      have hg := pop_good st hcnt hlim
      exact ih _ hops' hg.1 hg.2.1 hrun
    | opMarkTailCall =>
      simp only [runOps] at hrun
      have hg := markTailCall_good st hcnt
      exact ih _ hops' hg.1 (by rw [hg.2.1, hg.2.2]; exact hlim) hrun
    | opSetTopThunks ths =>
      simp only [runOps] at hrun
      have hg := setTopThunks_good st ths hcnt
      exact ih _ hops' hg.1 (by rw [hg.2.1, hg.2.2]; exact hlim) hrun

theorem runOps_limit (ops : List StackOp) (st st' : VMStack)
    (hrun : runOps ops st = Except.ok st') : st'.limit = st.limit := by
  induction ops generalizing st with
  | nil =>
    cases hrun
    rfl
  | cons op ops' ih =>
    cases op with
    | opNewFrame k =>
      simp only [runOps] at hrun
      rw [ih _ hrun]
      rfl
    | opNewCall c s o b =>
      simp only [runOps] at hrun
      cases hnc : newCall st c s o b with
      | error e => rw [hnc] at hrun; cases hrun
      | ok st₁ =>
        rw [hnc] at hrun
        rw [ih _ hrun]
        rw [newCall_eq] at hnc
        split at hnc
        · cases hnc
        · cases hnc
          unfold pushCallFrame
          simp only
          exact tailCallTrimStack_limit st
    | opPop =>
      simp only [runOps] at hrun
      rw [ih _ hrun]
      unfold pop
      cases st.frames <;> rfl
    | opMarkTailCall =>
      simp only [runOps] at hrun
      rw [ih _ hrun]
      unfold markTailCall
      cases st.frames <;> rfl
    | opSetTopThunks ths =>
      simp only [runOps] at hrun
      rw [ih _ hrun]
      unfold setTopThunks
      cases st.frames <;> rfl

/-- Claim C5: only CALL frames count against `max_stack`: `newCall` fails
with `Max stack frames exceeded.` exactly when, after tail-call trimming,
the live CALL count has reached the limit; `newFrame` (used for every
other frame kind) performs no limit check, never raises, and leaves the
CALL count unchanged; and along any sequence of stack operations from the
empty stack (with `newFrame` used only for non-CALL kinds, as in the
evaluator) the number of CALL frames on the stack never exceeds the
limit. -/
theorem claim_C5 :
    (∀ (st : VMStack) (c s : Option Nat) (o : Nat)
        (b : List (Ident × Nat)),
      newCall st c s o b = Except.error "Max stack frames exceeded." ↔
        st.limit ≤ (tailCallTrimStack st).calls)
    ∧ (∀ (st : VMStack) (k : FrameKind),
        (newFrame st k).calls = st.calls ∧
        (newFrame st k).limit = st.limit ∧
        (newFrame st k).frames = defaultFrame k :: st.frames)
    ∧ (∀ (ops : List StackOp) (limit : Nat) (st : VMStack),
        (∀ k, StackOp.opNewFrame k ∈ ops → k ≠ FrameKind.fCall) →
        runOps ops (initStack limit) = Except.ok st →
        countCalls st.frames ≤ limit) := by
  refine ⟨?_, fun st k => ⟨rfl, rfl, rfl⟩, ?_⟩
  · intro st c s o b
    rw [newCall_eq, tailCallTrimStack_limit]
    constructor
    · intro h
      by_contra hc
      rw [if_neg (by omega)] at h
      cases h
    · intro h
      rw [if_pos (by omega)]
  · intro ops limit st hops hrun
    have hg := runOps_invariant ops (initStack limit) st hops rfl
      (Nat.zero_le _) hrun
    have hl : st.limit = limit := runOps_limit ops (initStack limit) st hrun
    rw [← hg.1, ← hl]
    exact hg.2

/-- Witness for claim C5: open one CALL frame and one LOCAL frame under
limit 1; the run succeeds and the stack carries exactly one CALL frame,
within the limit. -/
theorem claim_C5_witness :
    (newCall (initStack 0) none none 0 [] =
        Except.error "Max stack frames exceeded." ↔
      (0 : Nat) ≤ (tailCallTrimStack (initStack 0)).calls)
    ∧ countCalls
        (match
          runOps [StackOp.opNewCall none none 0 [],
            StackOp.opNewFrame FrameKind.fLocal] (initStack 1) with
        | Except.ok st => st.frames
        | Except.error _ => []) ≤ 1 := by
  constructor
  · exact (claim_C5.1 (initStack 0) none none 0 []).trans (by simp [tailCallTrimStack, trimScan, initStack])
  · cases hrun : runOps [StackOp.opNewCall none none 0 [],
        StackOp.opNewFrame FrameKind.fLocal] (initStack 1) with
    | error e => simp [countCalls]
    | ok st =>
      simp only
      exact claim_C5.2.2 _ 1 st
        (by intro k hk; simp at hk; rw [hk]; intro hc; cases hc) hrun

theorem makeDoubleCheck_ok_finite (d : FP) (v : Value)
    (h : makeDoubleCheck d = Except.ok v) :
    ∃ q, v = Value.vdouble (FP.finite q) := by
  cases d with
  | nan => simp [makeDoubleCheck, FP.isNaN] at h
  | inf s => simp [makeDoubleCheck, FP.isNaN, FP.isInf] at h
  | finite q =>
    simp only [makeDoubleCheck, FP.isNaN, FP.isInf, if_neg, Bool.false_eq_true,
      if_false] at h
    exact ⟨q, by cases h; rfl⟩

theorem makeDoubleCheck_ok_fp (x d : FP)
    (h : makeDoubleCheck x = Except.ok (Value.vdouble d)) :
    ∃ q, d = FP.finite q := by
  obtain ⟨q, hq⟩ := makeDoubleCheck_ok_finite x _ h
  exact ⟨q, by injection hq⟩

theorem builtinUnaryFP_ok (g : FP → FP) (args : List FP) (d : FP)
    (h : builtinUnaryFP g args = Except.ok (Value.vdouble d)) :
    ∃ q, d = FP.finite q := by
  match args with
  | [] => exact absurd h (by simp [builtinUnaryFP])
  | [a] => exact makeDoubleCheck_ok_fp _ _ h
  | a :: b :: rest => exact absurd h (by simp [builtinUnaryFP])

theorem builtinBinaryFP_ok (g : FP → FP → FP) (args : List FP) (d : FP)
    (h : builtinBinaryFP g args = Except.ok (Value.vdouble d)) :
    ∃ q, d = FP.finite q := by
  match args with
  | [] => exact absurd h (by simp [builtinBinaryFP])
  | [a] => exact absurd h (by simp [builtinBinaryFP])
  | [a, b] => exact makeDoubleCheck_ok_fp _ _ h
  | a :: b :: c :: rest => exact absurd h (by simp [builtinBinaryFP])

theorem builtinModulo_ok (m : MathOps) (args : List FP) (d : FP)
    (h : builtinModulo m args = Except.ok (Value.vdouble d)) :
    ∃ q, d = FP.finite q := by
  match args with
  | [] => exact absurd h (by simp [builtinModulo])
  | [a] => exact absurd h (by simp [builtinModulo])
  | [a, b] =>
    unfold builtinModulo at h
    simp only at h
    by_cases hz : b.isZero
    · rw [if_pos hz] at h
      exact absurd h (by simp)
    · rw [if_neg hz] at h
      exact makeDoubleCheck_ok_fp _ _ h
  | a :: b :: c :: rest => exact absurd h (by simp [builtinModulo])

/-- Claim C6: every user-visible arithmetic site producing a number goes
through `makeDoubleCheck`, which fails with `Not a number` on NaN and
`Overflow` on an infinity; consequently every DOUBLE value returned by
binary `+`, `-`, `*`, `/` on numbers, by numeric literals, and by the
numeric builtins (`pow`, `floor`, `ceil`, `sqrt`, `sin`, `cos`, `tan`,
`asin`, `acos`, `atan`, `log`, `exp`, `mantissa`, `exponent`, `modulo`)
is finite — for every possible behaviour of the underlying C library
functions. -/
theorem claim_C6 :
    (∀ d : FP, d.isNaN = true →
      makeDoubleCheck d = Except.error "Not a number")
    ∧ (∀ d : FP, d.isInf = true →
      makeDoubleCheck d = Except.error "Overflow")
    ∧ (∀ (d : FP) (v : Value), makeDoubleCheck d = Except.ok v →
        ∃ q, v = Value.vdouble (FP.finite q))
    ∧ (∀ (op : BinOp) (l r d : FP),
        evalBinaryDouble op l r = Except.ok (Value.vdouble d) →
        ∃ q, d = FP.finite q)
    ∧ (∀ (m : MathOps) (id : Nat) (args : List FP) (d : FP),
        builtinNumeric m id args = Except.ok (Value.vdouble d) →
        ∃ q, d = FP.finite q)
    ∧ (∀ (d : FP) (v : Value), evalNumericLiteral d = Except.ok v →
        ∃ q, v = Value.vdouble (FP.finite q)) := by
  refine ⟨?_, ?_, makeDoubleCheck_ok_finite, ?_, ?_, ?_⟩
  · intro d h
    cases d <;> simp_all [makeDoubleCheck, FP.isNaN]
  · intro d h
    cases d <;> simp_all [makeDoubleCheck, FP.isNaN, FP.isInf]
  · intro op l r d h
    cases op with
    | bplus => exact makeDoubleCheck_ok_fp _ _ h
    | bminus => exact makeDoubleCheck_ok_fp _ _ h
    | bmult => exact makeDoubleCheck_ok_fp _ _ h
    | bdiv =>
      simp only [evalBinaryDouble] at h
      split at h
      · cases h
      · exact makeDoubleCheck_ok_fp _ _ h
    | bless => simp [evalBinaryDouble] at h
    | bgreater => simp [evalBinaryDouble] at h
    | blessEq => simp [evalBinaryDouble] at h
    | bgreaterEq => simp [evalBinaryDouble] at h
    | band => simp [evalBinaryDouble] at h
    | bor => simp [evalBinaryDouble] at h
  · intro m id args d h
    unfold builtinNumeric at h
    by_cases h1 : id = 1
    · rw [if_pos h1] at h
      exact builtinBinaryFP_ok _ _ _ h
    rw [if_neg h1] at h
    by_cases h2 : id = 2
    · rw [if_pos h2] at h
      exact builtinUnaryFP_ok _ _ _ h
    rw [if_neg h2] at h
    by_cases h3 : id = 3
    · rw [if_pos h3] at h
      exact builtinUnaryFP_ok _ _ _ h
    rw [if_neg h3] at h
    by_cases h4 : id = 4
    · rw [if_pos h4] at h
      exact builtinUnaryFP_ok _ _ _ h
    rw [if_neg h4] at h
    by_cases h5 : id = 5
    · rw [if_pos h5] at h
      exact builtinUnaryFP_ok _ _ _ h
    rw [if_neg h5] at h
    by_cases h6 : id = 6
    · rw [if_pos h6] at h
      exact builtinUnaryFP_ok _ _ _ h
    rw [if_neg h6] at h
    by_cases h7 : id = 7
    · rw [if_pos h7] at h
      exact builtinUnaryFP_ok _ _ _ h
    rw [if_neg h7] at h
    by_cases h8 : id = 8
    · rw [if_pos h8] at h
      exact builtinUnaryFP_ok _ _ _ h
    rw [if_neg h8] at h
    by_cases h9 : id = 9
    · rw [if_pos h9] at h
      exact builtinUnaryFP_ok _ _ _ h
    rw [if_neg h9] at h
    by_cases h10 : id = 10
    · rw [if_pos h10] at h
      exact builtinUnaryFP_ok _ _ _ h
    rw [if_neg h10] at h
    by_cases h18 : id = 18
    · rw [if_pos h18] at h
      exact builtinUnaryFP_ok _ _ _ h
    rw [if_neg h18] at h
    by_cases h19 : id = 19
    · rw [if_pos h19] at h
      exact builtinUnaryFP_ok _ _ _ h
    rw [if_neg h19] at h
    by_cases h20 : id = 20
    · rw [if_pos h20] at h
      exact builtinUnaryFP_ok _ _ _ h
    rw [if_neg h20] at h
    by_cases h21 : id = 21
    · rw [if_pos h21] at h
      exact builtinUnaryFP_ok _ _ _ h
    rw [if_neg h21] at h
    by_cases h22 : id = 22
    · rw [if_pos h22] at h
      exact builtinModulo_ok _ _ _ h
    rw [if_neg h22] at h
    exact absurd h (by simp)
  · intro d v h
    exact makeDoubleCheck_ok_finite d v h

/-- Witness for claim C6: NaN is rejected as `Not a number`, infinity as
`Overflow`, and concrete literal, binary and builtin evaluations all
return finite doubles. -/
theorem claim_C6_witness :
    makeDoubleCheck FP.nan = Except.error "Not a number"
    ∧ makeDoubleCheck (FP.inf false) = Except.error "Overflow"
    ∧ (∃ q, Value.vdouble (FP.finite 2) = Value.vdouble (FP.finite q))
    ∧ (∃ q, FP.finite (1 + 2) = FP.finite q)
    ∧ (∃ q, FP.finite 0 = FP.finite q)
    ∧ (∃ q, Value.vdouble (FP.finite 5) = Value.vdouble (FP.finite q)) :=
  ⟨claim_C6.1 FP.nan rfl,
   claim_C6.2.1 (FP.inf false) rfl,
   claim_C6.2.2.1 (FP.finite 2) (Value.vdouble (FP.finite 2)) rfl,
   claim_C6.2.2.2.1 BinOp.bplus (FP.finite 1) (FP.finite 2)
     (FP.finite (1 + 2)) rfl,
   claim_C6.2.2.2.2.1
     { powF := fun _ _ => FP.finite 0, floorF := fun _ => FP.finite 0,
       ceilF := fun _ => FP.finite 0, sqrtF := fun _ => FP.finite 0,
       sinF := fun _ => FP.finite 0, cosF := fun _ => FP.finite 0,
       tanF := fun _ => FP.finite 0, asinF := fun _ => FP.finite 0,
       acosF := fun _ => FP.finite 0, atanF := fun _ => FP.finite 0,
       logF := fun _ => FP.finite 0, expF := fun _ => FP.finite 0,
       frexpMantissa := fun _ => FP.finite 0, frexpExponent := fun _ => 0,
       fmodF := fun _ _ => FP.finite 0 }
     2 [FP.finite 1] (FP.finite 0) rfl,
   claim_C6.2.2.2.2.2 (FP.finite 5) (Value.vdouble (FP.finite 5)) rfl⟩

/-- Claim C10: `primitiveEquals` returns false without error whenever the
two arguments have different runtime types (in particular when exactly one
is a function); the error `Cannot test equality of functions` arises
exactly when both arguments are functions; and two nulls compare equal. -/
theorem claim_C10 (a b : Value) :
    (typeTag a ≠ typeTag b →
      primitiveEquals a b = Except.ok (Value.vboolean false))
    ∧ (primitiveEquals a b =
          Except.error "Cannot test equality of functions" ↔
        (∃ x, a = Value.vfunction x) ∧ ∃ y, b = Value.vfunction y)
    ∧ primitiveEquals Value.vnull Value.vnull =
        Except.ok (Value.vboolean true) := by
  refine ⟨?_, ?_, rfl⟩
  · intro h
    unfold primitiveEquals
    rw [if_pos h]
  · constructor
    · intro h
      cases a <;> cases b <;> simp_all [primitiveEquals, typeTag, typeStr]
    · rintro ⟨⟨x, hx⟩, ⟨y, hy⟩⟩
      subst hx
      subst hy
      rfl

/-- Witness for claim C10: a function and a number compare unequal
without error, two functions raise the dedicated error, and two nulls are
equal. -/
theorem claim_C10_witness :
    primitiveEquals (Value.vfunction 0) (Value.vdouble (FP.finite 1)) =
        Except.ok (Value.vboolean false)
    ∧ primitiveEquals (Value.vfunction 0) (Value.vfunction 1) =
        Except.error "Cannot test equality of functions"
    ∧ primitiveEquals Value.vnull Value.vnull =
        Except.ok (Value.vboolean true) :=
  ⟨(claim_C10 (Value.vfunction 0) (Value.vdouble (FP.finite 1))).1
      (by decide),
   (claim_C10 (Value.vfunction 0) (Value.vfunction 1)).2.1.mpr
      ⟨⟨0, rfl⟩, ⟨1, rfl⟩⟩,
   (claim_C10 Value.vnull Value.vnull).2.2⟩

theorem chase_unfilled (g : Nat) :
    ∀ (t : Nat) (h : List ThunkCell) (p : List Nat) (v : Nat),
    chase g t h = some (p, v) → ∀ x ∈ p,
    ∃ c, h.get? x = some c ∧ c.filled = false := by
  induction g with
  | zero =>
    intro t h p v hc
    cases hc
  | succ g ih =>
    intro t h p v hc x hx
    simp only [chase] at hc
    cases hget : h.get? t with
    | none =>
      rw [hget] at hc
      simp at hc
    | some c =>
      simp only [hget] at hc
      by_cases hf : c.filled
      · rw [if_pos hf] at hc
        cases hc
        cases hx
      · rw [if_neg hf] at hc
        cases hb : c.body with
        | lit n =>
          simp only [hb] at hc
          cases hc
          have hxt : x = t := by simpa using hx
          subst hxt
          exact ⟨c, hget, by simpa using hf⟩
        | var u =>
          simp only [hb] at hc
          cases hcu : chase g u h with
          | none => simp [hcu] at hc
          | some r =>
            obtain ⟨p₁, v₁⟩ := r
            simp only [hcu] at hc
            cases hc
            rcases List.mem_append.mp hx with hx1 | hx2
            · exact ih u h p₁ v hcu x hx1
            · have hxt : x = t := by simpa using hx2
              subst hxt
              exact ⟨c, hget, by simpa using hf⟩

theorem forceEval_sound (fuel : Nat) :
    ∀ (e : TExprRef) (h : List ThunkCell)
      (r : List ThunkCell × Nat × List Nat),
    forceEval fuel e h = some r → EvalRel e h r := by
  induction fuel with
  | zero =>
    intro e h r hc
    cases e with
    | lit n =>
      simp only [forceEval] at hc
      cases hc
      exact EvalRel.lit n h
    | var t => cases hc
  | succ fuel ih =>
    intro e h r hc
    cases e with
    | lit n =>
      simp only [forceEval] at hc
      cases hc
      exact EvalRel.lit n h
    | var t =>
      simp only [forceEval] at hc
      cases hget : h.get? t with
      | none =>
        rw [hget] at hc
        simp at hc
      | some c =>
        simp only [hget] at hc
        by_cases hf : c.filled
        · rw [if_pos hf] at hc
          cases hc
          exact EvalRel.cached t h c hget hf
        · rw [if_neg hf] at hc
          cases hin : forceEval fuel c.body h with
          | none =>
            rw [hin] at hc
            simp at hc
          | some r₁ =>
            obtain ⟨h₁, v₁, fs₁⟩ := r₁
            simp only [hin] at hc
            cases hc
            exact EvalRel.force t h h₁ c v₁ fs₁ hget (by simpa using hf)
              (ih c.body h _ hin)

